import Mathlib

/-!
Verification of the streaming ingestion pipeline of `src/kaijup.cpp`.

The program's `main` (after option parsing) is straight-line sequential
code: it validates numeric options, opens the FM-index file, constructs the
bounded queue, spawns `num_threads` worker threads, opens the input
stream(s), auto-detects the input format from the first character of the
first line, then runs the record-extraction loop(s), pushing one `ReadItem`
per record, signals completion (`pushedLast`), joins the workers in spawn
order, and destroys the queue and configuration.

We embed this shallowly:

* a text stream is a list of lines (`List (List Char)`); `getline`
  consumes the head line, `peek` inspects the first character of the head
  line (or reports end-of-stream when no lines remain), and
  `ignore(max, newline)` drops one line;
* `strip` / `isalpha` (source lines 330-341) become pure functions on
  `List Char`;
* the FASTQ and FASTA record loops (source lines 239-268) become the
  recursive functions `parseFastq` and `parseFasta`;
* the paired-mode second loop (source lines 270-304) becomes `pairedLoop`;
* numeric option handling via `stoi` with caught exceptions and the range
  validation (source lines 59-152) become `stoi`, `applyNumOpt`,
  `configResult`;
* the observable control flow of `main` from FM-index opening to exit
  becomes the event trace `fullMain`.

`ReadItem.hpp` is not among the provided sources; the `ReadItem` structure
is modelled from the spec's Work Item data model (identifier, primary
sequence, optional second sequence), and the two-argument constructor used
at source lines 266 and 300 is `ReadItem.mk2`.
-/

namespace Kaijup

/-- The custom `isalpha` of `kaijup.cpp` (lines 330-332): a pure ASCII
range check, `(c >= 'a' && c <= 'z') || (c >= 'A' && c <= 'Z')`,
independent of any locale. -/
def isalpha (c : Char) : Bool :=
  ('a' ≤ c && c ≤ 'z') || ('A' ≤ c && c ≤ 'Z')

/-- The `strip` of `kaijup.cpp` (lines 334-341).  The source iterates over
the string and, on every character failing `isalpha`, erases it in place
and steps the iterator back so that the shifted-in successor is examined
next; characters passing `isalpha` are kept and the iterator advances.
That in-place loop keeps a character iff `isalpha` holds of it, preserving
order, which is this recursion. -/
def strip : List Char → List Char
  | [] => []
  | c :: s => if isalpha c then c :: strip s else strip s

/-- Modelled from the spec: `ReadItem.hpp` is not among the sources.
Spec section 3 (Work Item): "identifier (free-text name extracted from the
record header), primary sequence (string over the amino-acid/nucleotide
alphabet, non-alphabetic characters stripped), optional second sequence
(from a paired input, set only in paired mode)". -/
structure ReadItem where
  name : List Char
  sequence : List Char
  sequence2 : Option (List Char)
  deriving DecidableEq, Repr

/-- Modelled from the spec: the two-argument `ReadItem` constructor used by
`kaijup.cpp` at lines 266 and 300 (`new ReadItem(name, sequence1)`)
supplies an identifier and a primary sequence only, so the optional second
sequence of the spec's Work Item stays unset. -/
def ReadItem.mk2 (name sequence : List Char) : ReadItem :=
  { name := name, sequence := sequence, sequence2 := none }

/-- One `getline` step on a good (non-failed) stream modelled as a list of
lines: on a non-empty stream it yields the head line and the rest; at
end-of-stream the extraction fails, the target string having been cleared
by `getline` (its sentry still succeeds on a good stream), so the buffer
is `[]` and the stream stays empty. -/
def getlineM : List (List Char) → List Char × List (List Char)
  | [] => ([], [])
  | l :: rest => (l, rest)

/-- The FASTQ record loop (`kaijup.cpp` lines 239-253), iterated by the
enclosing `while (getline(in1_file, line))`: per iteration the header
line is consumed and its first character erased (line 242, the leading
`@` of a valid record; erasing the first character of an empty line would
be undefined in the source, and the theorems below only instantiate
non-empty headers), the sequence line is read and stripped (lines
245-248), and the separator and quality lines are skipped unconditionally
by two `ignore` calls (lines 250-252).  The four match arms spell out how
those three reads behave near end-of-stream: a sequence `getline` failing
at end-of-stream leaves a cleared buffer, so a header-only record gets an
empty sequence, and the `ignore` calls at end-of-stream are no-ops. -/
def parseFastq : List (List Char) → List ReadItem
  | [] => []
  | [header] => [ReadItem.mk2 (header.drop 1) (strip [])]
  | [header, seqline] => [ReadItem.mk2 (header.drop 1) (strip seqline)]
  | [header, seqline, _plus] => [ReadItem.mk2 (header.drop 1) (strip seqline)]
  | header :: seqline :: _plus :: _qual :: rest =>
    ReadItem.mk2 (header.drop 1) (strip seqline) :: parseFastq rest

/-- Whether `in1_file.peek()` would report `'>'`: the stream's next
character is `'>'` exactly when a line remains and starts with `'>'`
(an empty remaining line makes `peek` report the newline character
instead). -/
def startsWithGt : List Char → Bool
  | [] => false
  | c :: _ => c = '>'

/-- The FASTA record loop of `kaijup.cpp` lines 254-265 from the point
where the current record's header has been consumed and its leading `'>'`
erased (line 256), with `nm` the identifier in hand and `acc` the
sequence accumulated so far (`sequence1`, cleared at line 259 when the
record began).  The inner loop at lines 260-263 appends lines while
`in1_file.peek()` reports neither `'>'` nor end-of-stream; when it stops,
the accumulated sequence is stripped (line 264) and the record pushed
(line 266).  At end-of-stream the outer `while (getline(...))` (line 239)
then ends; at a `'>'` line that line is the next record's header, which
the outer `getline` consumes to start the next iteration. -/
def fastaGo (nm : List Char) (acc : List Char) : List (List Char) → List ReadItem
  | [] => [ReadItem.mk2 nm (strip acc)]
  | l :: rest =>
    if startsWithGt l then
      ReadItem.mk2 nm (strip acc) :: fastaGo (l.drop 1) [] rest
    else
      fastaGo nm (acc ++ l) rest

/-- The FASTA record loop (`kaijup.cpp` lines 239 and 254-266) from the
top: the first `getline` of the outer loop consumes the first header line,
whose leading `'>'` is erased (line 256); `fastaGo` then runs the rest of
the loop.  An empty stream yields no records (the very first `getline`
fails). -/
def parseFasta : List (List Char) → List ReadItem
  | [] => []
  | header :: rest => fastaGo (header.drop 1) [] rest

/-- Format auto-detection on the first line of the primary input
(`kaijup.cpp` lines 221-229): the first character of the first line is
inspected; `'@'` selects FASTQ (`some true`), `'>'` selects FASTA
(`some false`), anything else is a fatal detection failure (`none`).
Calling `front()` on an empty first line (possible only for an empty
stream, whose failed `getline` leaves the buffer cleared) is undefined
behaviour in the source; it is modelled as a detection failure here, and
every theorem below instantiates a non-empty first line. -/
def detect1 : List Char → Option Bool
  | [] => none
  | c :: _ => if c = '@' then some true else if c = '>' then some false else none

/-- The primary-stream processing of `kaijup.cpp` lines 218-268: one
`getline` consumes the first line for format detection (line 222), then
`in1_file.seekg(0, ios::beg)` (line 230) restores the stream position to
the start, so the record loop runs over the full stream, the inspected
first line included.  `none` models the fatal `exit(EXIT_FAILURE)` on
detection failure (lines 226-229), under which no record is produced. -/
def processStream1 (lines : List (List Char)) : Option (List ReadItem) :=
  let firstLine := (getlineM lines).1
  let restored := lines
  match detect1 firstLine with
  | some true => some (parseFastq restored)
  | some false => some (parseFasta restored)
  | none => none

/-- The paired-mode second loop (`kaijup.cpp` lines 270-304), entered only
after the first loop has exhausted `in1_file`: that loop ends with a
failed `getline`, so `in1_file` carries `failbit` for the whole second
loop.  Consequently, in the FASTQ branch, the header line is read from
`in2_file` and its first character erased (lines 272-276), but the
sequence `getline` at line 278 targets `in1_file`: its sentry fails and
the line buffer is left unchanged, still holding the header minus its
first character, which is then stripped in place (line 280) and pushed as
the sequence; the two `ignore` calls on `in1_file` (lines 283-285) are
no-ops.  In the FASTA branch, `in1_file.peek()` (line 293) reports
end-of-file on the failed stream, so the body loop never runs and the
freshly cleared `sequence1` (line 292) is pushed empty. -/
def pairedLoop (isFastQ : Bool) : List (List Char) → List ReadItem
  | [] => []
  | header :: in2rest =>
    if isFastQ then
      ReadItem.mk2 (header.drop 1) (strip (header.drop 1))
        :: pairedLoop isFastQ in2rest
    else
      ReadItem.mk2 (header.drop 1) (strip [])
        :: pairedLoop isFastQ in2rest

/-- ASCII decimal digit, as classified by `strtol` under `std::stoi`. -/
def isdigitC (c : Char) : Bool := '0' ≤ c && c ≤ '9'

/-- ASCII whitespace skipped by `strtol` under `std::stoi`: space, tab,
newline, vertical tab, form feed, carriage return. -/
def isspaceC (c : Char) : Bool :=
  c = ' ' || c = '\t' || c = '\n' || c = '\x0b' || c = '\x0c' || c = '\r'

/-- Value of a non-empty digit run, most significant first. -/
def digitsToNat (ds : List Char) : Nat :=
  ds.foldl (fun a c => a * 10 + (c.toNat - '0'.toNat)) 0

/-- Smallest value of the 32-bit `int` that `std::stoi` returns. -/
def intMin : Int := -2147483648

/-- Largest value of the 32-bit `int` that `std::stoi` returns. -/
def intMax : Int := 2147483647

/-- Behaviour of `std::stoi(optarg)` as used in `kaijup.cpp` lines
82-141: skip leading whitespace, accept one optional sign, then a decimal
digit run.  `none` covers both exceptions the source catches — a
`std::invalid_argument` when no digit is converted and a
`std::out_of_range` when the value does not fit `int` — because both
catch blocks behave identically there (print a diagnostic and continue
with the variable unchanged). -/
def stoi (s : List Char) : Option Int :=
  let s1 := s.dropWhile isspaceC
  let signed : Int × List Char :=
    match s1 with
    | '-' :: t => (-1, t)
    | '+' :: t => (1, t)
    | _ => (1, s1)
  let ds := signed.2.takeWhile isdigitC
  if ds.isEmpty then none
  else
    let v : Int := signed.1 * (digitsToNat ds : Int)
    if v < intMin || intMax < v then none else some v

/-- Effect of one numeric `getopt` case (`kaijup.cpp` lines 82-141) on
its variable: absent option leaves the current (default) value; a present
option is passed through `stoi`, whose result replaces the value on
success, while a thrown-and-caught exception leaves the value
unchanged. -/
def applyNumOpt (cur : Int) (arg : Option (List Char)) : Int :=
  match arg with
  | none => cur
  | some a =>
    match stoi a with
    | some v => v
    | none => cur

/-- The command-line inputs relevant to the numeric validation of
`kaijup.cpp` lines 146-152: the raw `optarg` strings of `-m`, `-s`, `-e`,
`-l`, `-z` (absent when the option was not given), and the `-f`, `-i`,
`-j` filename strings (empty when not given). -/
structure Options where
  mArg : Option (List Char)
  sArg : Option (List Char)
  eArg : Option (List Char)
  lArg : Option (List Char)
  zArg : Option (List Char)
  fmiFilename : List Char
  inFilename : List Char
  in2Filename : List Char
  deriving DecidableEq, Repr

/-- The numeric run parameters after option processing (`kaijup.cpp`
lines 46-51 defaults, lines 82-141 updates). -/
structure RunParams where
  minScore : Int
  minFragmentLength : Int
  seedLength : Int
  mismatches : Int
  numThreads : Nat
  deriving DecidableEq, Repr

/-- The option resolution and validation phase (`kaijup.cpp` lines 46-51
and 146-152): each numeric variable starts at its default and is updated
by `applyNumOpt`; the seven validation checks then run in source order
(`-s`, `-z`, `-m`, `-e`, `-l`, then the mandatory `-f` and `-i`
filenames), each failure calling `usage(argv[0])`, which exits.  `none`
models that exit; `some` carries the resolved parameters into the rest of
`main`. -/
def configResult (o : Options) : Option RunParams :=
  let minScore := applyNumOpt 65 o.sArg
  let minFragmentLength := applyNumOpt 11 o.mArg
  let seedLength := applyNumOpt 7 o.lArg
  let mismatches := applyNumOpt 0 o.eArg
  let numThreads := applyNumOpt 1 o.zArg
  if minScore ≤ 0 then none
  else if numThreads ≤ 0 then none
  else if minFragmentLength ≤ 0 then none
  else if mismatches < 0 then none
  else if seedLength < 7 then none
  else if o.fmiFilename.length = 0 then none
  else if o.inFilename.length = 0 then none
  else some ⟨minScore, minFragmentLength, seedLength, mismatches, numThreads.toNat⟩

/-- Observable events of `main` in source order: the `usage()` exit of a
failed validation or a failed FM-index `fopen` (lines 146-152, 177),
opening the FM-index file (line 176), constructing the bounded queue
(line 198), spawning worker `i` (line 204), opening the input streams
(lines 208, 212) and their failure exits (lines 210, 213), the fatal
format-detection exit (lines 226-228), pushing a `ReadItem` (lines 266,
300), signalling completion (line 306), joining worker `i` (line 312),
deleting the queue and the configuration (lines 325-326), and the final
process exits. -/
inductive Ev where
  | exitUsage
  | openFmi
  | mkQueue
  | spawn (i : Nat)
  | openIn1
  | in1OpenFail
  | openIn2
  | in2OpenFail
  | detectFail
  | push (r : ReadItem)
  | pushedLast
  | join (i : Nat)
  | destroyQueue
  | destroyConfig
  | exitFailure
  | exitSuccess
  deriving DecidableEq, Repr

/-- All `ReadItem`s pushed during a run that reaches the record loops:
the first loop over the primary stream (FASTQ or FASTA according to the
detected format), then, exactly when a second stream was configured and
opened, the paired loop over the second stream. -/
def producedItems (isFastQ : Bool) (lines1 : List (List Char))
    (in2 : Option (Option (List (List Char)))) : List ReadItem :=
  (if isFastQ then parseFastq lines1 else parseFasta lines1) ++
    match in2 with
    | some (some lines2) => pairedLoop isFastQ lines2
    | _ => []

/-- Event trace of `main` from option validation (lines 146-152) to
process exit (`kaijup.cpp` lines 146-327), as a function of the parsed
options, whether the FM-index file opens (`fmiOk`), the primary input
stream (`none` when it cannot be opened, otherwise its lines), and the
secondary input stream (`none` when `-j` was not given, `some none` when
it was given but the file cannot be opened, `some (some lines)` when it
opens).  Orderings preserved from the source: validation exits precede
every other event; the FM-index is opened (line 176) before the queue is
built (line 198); all workers are spawned (lines 201-205) before the
input streams are opened (lines 208-215); detection (lines 218-231)
follows stream opening; all pushes precede the single `pushedLast`
(line 306); joins (lines 311-316) run in spawn order and precede the
queue and configuration deletions (lines 325-326).  The output-file
handling of lines 187-196 involves no claimed event and is omitted. -/
def fullMain (o : Options) (fmiOk : Bool) (in1 : Option (List (List Char)))
    (in2 : Option (Option (List (List Char)))) : List Ev :=
  match configResult o with
  | none => [Ev.exitUsage]
  | some p =>
    if fmiOk = false then [Ev.exitUsage]
    else
      Ev.openFmi :: Ev.mkQueue ::
        ((List.range p.numThreads).map Ev.spawn ++
          match in1 with
          | none => [Ev.in1OpenFail, Ev.exitFailure]
          | some lines1 =>
            Ev.openIn1 ::
              match in2 with
              | some none => [Ev.in2OpenFail, Ev.exitFailure]
              | _ =>
                (match in2 with
                 | some (some _) => [Ev.openIn2]
                 | _ => []) ++
                  match detect1 (getlineM lines1).1 with
                  | none => [Ev.detectFail, Ev.exitFailure]
                  | some isFastQ =>
                    (producedItems isFastQ lines1 in2).map Ev.push ++
                      Ev.pushedLast ::
                        ((List.range p.numThreads).map Ev.join ++
                          [Ev.destroyQueue, Ev.destroyConfig, Ev.exitSuccess]))

/-- The line stream of a list of FASTA blocks: each block is a pair of a
header name and body lines, contributing the header line `'>' :: name`
followed by its body lines. -/
def fastaStream (blocks : List (List Char × List (List Char))) : List (List Char) :=
  (blocks.map (fun b => ('>' :: b.1) :: b.2)).flatten

/-- The line stream of a list of FASTQ records: each record is a header
name, a sequence line, a separator line and a quality line, contributing
the four lines `'@' :: name`, sequence, separator, quality. -/
def fastqStream (recs : List (List Char × List Char × List Char × List Char)) :
    List (List Char) :=
  (recs.map (fun r => [('@' :: r.1), r.2.1, r.2.2.1, r.2.2.2])).flatten

/-- A well-formed invocation: mandatory `-f` and `-i` present, every
numeric option left at its default. -/
def optsOk : Options := ⟨none, none, none, none, none, ['f'], ['i'], []⟩

/-- The run parameters `optsOk` resolves to: all source defaults
(lines 46-51), one thread. -/
def paramsOk : RunParams := ⟨65, 11, 7, 0, 1⟩

/-- The invocation `optsOk` with the non-numeric thread count `-z abc`. -/
def optsBadZ : Options := ⟨none, none, none, none, some ['a', 'b', 'c'], ['f'], ['i'], []⟩

/-- The invocation `optsOk` with the out-of-range fragment length `-m 0`. -/
def optsBadM : Options := ⟨some ['0'], none, none, none, none, ['f'], ['i'], []⟩

/-- The events of a normally completing run that precede the completion
signal: FM-index open, queue construction, the `N` spawns in index order,
the input-stream opens, and one push per produced item. -/
def preEvents (n : Nat) (opt2 : List Ev) (items : List ReadItem) : List Ev :=
  Ev.openFmi :: Ev.mkQueue ::
    ((List.range n).map Ev.spawn ++
      Ev.openIn1 :: (opt2 ++ items.map Ev.push))

theorem strip_eq_filter (s : List Char) : strip s = s.filter isalpha := by
  induction s with
  | nil => rfl
  | cons c t ih => by_cases hc : isalpha c <;> simp [strip, hc, List.filter_cons, ih]

/-- C10: for every string `s`, `strip s` removes exactly the characters
outside the ASCII ranges `A`-`Z` and `a`-`z` (digits, whitespace, `*`,
`-`, and all other bytes are removed regardless of locale, since the
shadowing `isalpha` is a pure range check) and preserves the relative
order of the characters that remain (the result is a sublist of the
input). -/
theorem claim_C10_thm (s : List Char) :
    strip s = s.filter (fun c => (('A' ≤ c && c ≤ 'Z') || ('a' ≤ c && c ≤ 'z'))) ∧
    (strip s).Sublist s := by
  refine ⟨?_, ?_⟩
  · rw [strip_eq_filter]
    exact List.filter_congr (fun c _ => by simp [isalpha, Bool.or_comm])
  · rw [strip_eq_filter]
    exact List.filter_sublist s

/-- C1: the claim states that in paired mode every structural line of a
second-stream record is read from the second stream itself, so each
pushed item's sequence comes from the second file.  The code instead
directs the sequence `getline` and both `ignore` calls of the second loop
at the exhausted first stream (`in1_file`, lines 278-285): on the
concrete second-stream FASTQ record `@r2 / CCCC / + / !!!!` the loop
treats every line of the second file as a header, reads no sequence line
from it, and pushes four items whose sequences are the stripped leftovers
of the line buffer — not the single item `(r2, CCCC)` that reading the
structural lines from the second stream (as `parseFastq` does on the
first stream) would produce. -/
theorem claim_C1_code_eval :
    pairedLoop true [['@', 'r', '2'], ['C', 'C', 'C', 'C'], ['+'], ['!', '!', '!', '!']] =
      [ReadItem.mk2 ['r', '2'] ['r'],
       ReadItem.mk2 ['C', 'C', 'C'] ['C', 'C', 'C'],
       ReadItem.mk2 [] [],
       ReadItem.mk2 ['!', '!', '!'] []] ∧
    parseFastq [['@', 'r', '2'], ['C', 'C', 'C', 'C'], ['+'], ['!', '!', '!', '!']] =
      [ReadItem.mk2 ['r', '2'] ['C', 'C', 'C', 'C']] ∧
    pairedLoop true [['@', 'r', '2'], ['C', 'C', 'C', 'C'], ['+'], ['!', '!', '!', '!']] ≠
      parseFastq [['@', 'r', '2'], ['C', 'C', 'C', 'C'], ['+'], ['!', '!', '!', '!']] :=
  ⟨by decide, by decide, by decide⟩

/-- C6: for every valid FASTQ input stream (any list of 4-line records),
the parser yields exactly one Work Item per 4-line group, consuming
exactly 4 lines per record: the identifier is the header minus the
leading `@`, the sequence is the second line with non-alphabetic
characters removed, and the separator and quality lines are discarded
without any validation — the statement imposes no condition whatsoever on
the separator or quality lines, in particular never relating quality-line
length to sequence length. -/
theorem claim_C6_thm (recs : List (List Char × List Char × List Char × List Char)) :
    parseFastq (fastqStream recs) =
      recs.map (fun r => ReadItem.mk2 r.1 (strip r.2.1)) ∧
    (fastqStream recs).length = 4 * recs.length := by
  constructor
  · induction recs with
    | nil => rfl
    | cons r rs ih => simp [fastqStream, parseFastq] at ih ⊢; exact ih
  · induction recs with
    | nil => rfl
    | cons r rs ih =>
      simp only [fastqStream, List.map_cons, List.flatten_cons, List.length_append,
        List.length_cons, List.length_nil] at ih ⊢
      omega

theorem fastaGo_append (nm acc : List Char) (body tail : List (List Char))
    (hb : ∀ l ∈ body, startsWithGt l = false) :
    fastaGo nm acc (body ++ tail) = fastaGo nm (acc ++ body.flatten) tail := by
  induction body generalizing acc with
  | nil => simp
  | cons l bt ih =>
    have hl : startsWithGt l = false := hb l (by simp)
    simp only [List.cons_append, fastaGo, hl, Bool.false_eq_true, if_false,
      List.flatten_cons, List.append_eq]
    rw [ih (acc ++ l) (fun x hx => hb x (by simp [hx])), List.append_assoc]

theorem fastaGo_stream (nm acc : List Char)
    (blocks : List (List Char × List (List Char)))
    (hb : ∀ b ∈ blocks, ∀ l ∈ b.2, startsWithGt l = false) :
    fastaGo nm acc (fastaStream blocks) =
      ReadItem.mk2 nm (strip acc) ::
        blocks.map (fun b => ReadItem.mk2 b.1 (strip b.2.flatten)) := by
  induction blocks generalizing nm acc with
  | nil => rfl
  | cons b bs ih =>
    have h1 : fastaStream (b :: bs) = ('>' :: b.1) :: (b.2 ++ fastaStream bs) := by
      simp [fastaStream]
    rw [h1]
    have hgt : startsWithGt ('>' :: b.1) = true := by simp [startsWithGt]
    simp only [fastaGo, hgt, if_true, List.drop_succ_cons, List.drop_zero]
    rw [fastaGo_append b.1 [] b.2 (fastaStream bs) (hb b (by simp))]
    simp only [List.nil_append]
    rw [ih b.1 b.2.flatten (fun x hx => hb x (by simp [hx]))]
    simp

/-- C5: for every valid FASTA input stream (a list of `>`-marked blocks
whose body lines do not begin with `>`), the parser pushes exactly one
Work Item per block, whose identifier equals the header line with the
leading `>` removed, and whose sequence equals the concatenation of all
lines up to the next `>` line or end of stream with non-alphabetic
characters removed. -/
theorem claim_C5_thm (blocks : List (List Char × List (List Char)))
    (hb : ∀ b ∈ blocks, ∀ l ∈ b.2, startsWithGt l = false) :
    parseFasta (fastaStream blocks) =
      blocks.map (fun b => ReadItem.mk2 b.1 (strip b.2.flatten)) := by
  cases blocks with
  | nil => rfl
  | cons b bs =>
    have h1 : fastaStream (b :: bs) = ('>' :: b.1) :: (b.2 ++ fastaStream bs) := by
      simp [fastaStream]
    rw [h1]
    show fastaGo (('>' :: b.1).drop 1) [] (b.2 ++ fastaStream bs) = _
    simp only [List.drop_succ_cons, List.drop_zero]
    rw [fastaGo_append b.1 [] b.2 (fastaStream bs) (hb b (by simp))]
    simp only [List.nil_append]
    rw [fastaGo_stream b.1 b.2.flatten bs (fun x hx => hb x (by simp [hx]))]
    simp

/-- Witness for C5 at the spec's own end-to-end example, the two-block
stream `>r1 / AAAA / >r2 / CCCC`. -/
theorem claim_C5_witness :
    parseFasta (fastaStream
        [(['r', '1'], [['A', 'A', 'A', 'A']]), (['r', '2'], [['C', 'C', 'C', 'C']])]) =
      [(['r', '1'], [['A', 'A', 'A', 'A']]), (['r', '2'], [['C', 'C', 'C', 'C']])].map
        (fun b => ReadItem.mk2 b.1 (strip b.2.flatten)) :=
  claim_C5_thm _ (by decide)

theorem parseFastq_head (header : List Char) (rest : List (List Char)) :
    ∃ s tl, parseFastq (header :: rest) = ReadItem.mk2 (header.drop 1) s :: tl := by
  match rest with
  | [] => exact ⟨strip [], [], rfl⟩
  | [s] => exact ⟨strip s, [], rfl⟩
  | [s, p] => exact ⟨strip s, [], rfl⟩
  | s :: p :: q :: tl => exact ⟨strip s, parseFastq tl, rfl⟩

theorem fastaGo_head (nm acc : List Char) (stream : List (List Char)) :
    ∃ s tl, fastaGo nm acc stream = ReadItem.mk2 nm s :: tl := by
  induction stream generalizing acc with
  | nil => exact ⟨strip acc, [], rfl⟩
  | cons l rest ih =>
    by_cases hl : startsWithGt l
    · exact ⟨strip acc, fastaGo (l.drop 1) [] rest, by simp [fastaGo, hl]⟩
    · obtain ⟨s, tl, h⟩ := ih (acc ++ l)
      exact ⟨s, tl, by simp [fastaGo, hl, h]⟩

/-- C7: format auto-detection does not destructively consume the primary
input.  After the first line is inspected for the format marker, the
stream position is restored to the start (`seekg(0, ios::beg)`), so the
record loop runs over the full stream — the items are those of the
selected parser applied to the entire line list, first line included —
and the first Work Item produced corresponds to the first record of the
stream, its identifier being the inspected header line minus the
marker. -/
theorem claim_C7_thm (c : Char) (cs : List Char) (ls : List (List Char))
    (h : c = '@' ∨ c = '>') :
    ∃ items,
      processStream1 ((c :: cs) :: ls) = some items ∧
      items = (if c = '@' then parseFastq ((c :: cs) :: ls)
               else parseFasta ((c :: cs) :: ls)) ∧
      ∃ r tl, items = r :: tl ∧ r.name = cs := by
  rcases h with rfl | rfl
  · refine ⟨parseFastq (('@' :: cs) :: ls), ?_, by simp, ?_⟩
    · simp [processStream1, detect1, getlineM]
    · obtain ⟨s, tl, hh⟩ := parseFastq_head ('@' :: cs) ls
      exact ⟨ReadItem.mk2 cs s, tl, by simpa using hh, rfl⟩
  · refine ⟨parseFasta (('>' :: cs) :: ls), ?_, by simp, ?_⟩
    · simp [processStream1, detect1, getlineM]
    · obtain ⟨s, tl, hh⟩ := fastaGo_head cs [] ls
      exact ⟨ReadItem.mk2 cs s, tl, by simpa [parseFasta] using hh, rfl⟩

/-- Witness for C7 on the FASTA stream `>r1 / AA`. -/
theorem claim_C7_witness :
    ∃ items,
      processStream1 ((('>' : Char) :: ['r', '1']) :: [['A', 'A']]) = some items ∧
      items = (if ('>' : Char) = '@'
               then parseFastq ((('>' : Char) :: ['r', '1']) :: [['A', 'A']])
               else parseFasta ((('>' : Char) :: ['r', '1']) :: [['A', 'A']])) ∧
      ∃ r tl, items = r :: tl ∧ r.name = ['r', '1'] :=
  claim_C7_thm '>' ['r', '1'] [['A', 'A']] (Or.inr rfl)

/-- C4: format auto-detection on the primary input.  If the first
character of the first line is `@` the whole run parses in FASTQ mode; if
it is `>` the whole run parses in FASTA mode; for any other first
character the run terminates with a fatal detection error and produces no
Work Items (no push event occurs in the trace). -/
theorem claim_C4_thm (o : Options) (p : RunParams) (c : Char) (cs : List Char)
    (ls : List (List Char)) (in2 : Option (Option (List (List Char))))
    (hc : configResult o = some p) (hin2 : in2 ≠ some none) :
    (c = '@' → processStream1 ((c :: cs) :: ls) = some (parseFastq ((c :: cs) :: ls))) ∧
    (c = '>' → processStream1 ((c :: cs) :: ls) = some (parseFasta ((c :: cs) :: ls))) ∧
    (c ≠ '@' → c ≠ '>' →
      processStream1 ((c :: cs) :: ls) = none ∧
      Ev.detectFail ∈ fullMain o true (some ((c :: cs) :: ls)) in2 ∧
      Ev.exitFailure ∈ fullMain o true (some ((c :: cs) :: ls)) in2 ∧
      ∀ r, Ev.push r ∉ fullMain o true (some ((c :: cs) :: ls)) in2) := by
  refine ⟨?_, ?_, ?_⟩
  · rintro rfl
    simp [processStream1, detect1, getlineM]
  · rintro rfl
    simp [processStream1, detect1, getlineM]
  · intro h1 h2
    have hd : detect1 (getlineM ((c :: cs) :: ls)).1 = none := by
      simp [detect1, getlineM, h1, h2]
    refine ⟨by simp [processStream1, hd], ?_, ?_, ?_⟩ <;>
      rcases in2 with _ | (_ | l2) <;>
        simp [fullMain, hc, hd] at hin2 ⊢

/-- Witness for C4 at the unrecognized first character `X`. -/
theorem claim_C4_witness :
    (('X' : Char) = '@' →
      processStream1 [[('X' : Char)]] = some (parseFastq [[('X' : Char)]])) ∧
    (('X' : Char) = '>' →
      processStream1 [[('X' : Char)]] = some (parseFasta [[('X' : Char)]])) ∧
    (('X' : Char) ≠ '@' → ('X' : Char) ≠ '>' →
      processStream1 [[('X' : Char)]] = none ∧
      Ev.detectFail ∈ fullMain optsOk true (some [[('X' : Char)]]) none ∧
      Ev.exitFailure ∈ fullMain optsOk true (some [[('X' : Char)]]) none ∧
      ∀ r, Ev.push r ∉ fullMain optsOk true (some [[('X' : Char)]]) none) :=
  claim_C4_thm optsOk paramsOk 'X' [] [] none (by decide) (by decide)

/-- C2 counterexample: in the run whose primary input cannot be opened
(options valid, FM index opens), the trace is `openFmi, mkQueue, spawn 0,
in1OpenFail, exitFailure` — the worker thread is spawned (line 204)
before the stream-open failure is diagnosed (line 210), refuting the
claim that the abort happens before any worker thread has been
spawned. -/
theorem claim_C2_counterexample :
    fullMain optsOk true none none =
      [Ev.openFmi, Ev.mkQueue, Ev.spawn 0, Ev.in1OpenFail, Ev.exitFailure] ∧
    Ev.spawn 0 ∈ fullMain optsOk true none none ∧
    Ev.exitFailure ∈ fullMain optsOk true none none := by decide

/-- C2 (amended): for every run in which the primary input stream cannot
be opened, or in which its first character is neither `@` nor `>`, the
process aborts with a fatal diagnostic before any Work Item is pushed and
before completion is signalled — but after the worker threads have been
spawned, since `main` spawns them before opening the input. -/
theorem claim_C2_amended_thm (o : Options) (p : RunParams)
    (in1 : Option (List (List Char))) (in2 : Option (Option (List (List Char))))
    (hc : configResult o = some p)
    (h : in1 = none ∨ ∃ lines1, in1 = some lines1 ∧ detect1 (getlineM lines1).1 = none) :
    Ev.exitFailure ∈ fullMain o true in1 in2 ∧
    (∀ r, Ev.push r ∉ fullMain o true in1 in2) ∧
    Ev.pushedLast ∉ fullMain o true in1 in2 ∧
    Ev.exitSuccess ∉ fullMain o true in1 in2 := by
  rcases h with rfl | ⟨lines1, rfl, hd⟩
  · simp [fullMain, hc]
  · rcases in2 with _ | (_ | l2) <;> simp [fullMain, hc, hd]

/-- Witness for the amended C2 at an unopenable primary stream. -/
theorem claim_C2_witness :
    Ev.exitFailure ∈ fullMain optsOk true none none ∧
    (∀ r, Ev.push r ∉ fullMain optsOk true none none) ∧
    Ev.pushedLast ∉ fullMain optsOk true none none ∧
    Ev.exitSuccess ∉ fullMain optsOk true none none :=
  claim_C2_amended_thm optsOk paramsOk none none (by decide) (Or.inl rfl)

/-- C3 counterexample: the invocation with the non-numeric thread count
`-z abc` does not abort.  `stoi` throws, the handler only prints, the
thread count keeps its default 1, validation passes, and the run proceeds
to build the queue, open the input stream and complete successfully —
refuting the claim that every non-numeric option value aborts the
process. -/
theorem claim_C3_counterexample :
    configResult optsBadZ = some paramsOk ∧
    Ev.exitUsage ∉ fullMain optsBadZ true (some [['>', 'r']]) none ∧
    Ev.exitFailure ∉ fullMain optsBadZ true (some [['>', 'r']]) none ∧
    Ev.mkQueue ∈ fullMain optsBadZ true (some [['>', 'r']]) none ∧
    Ev.openIn1 ∈ fullMain optsBadZ true (some [['>', 'r']]) none ∧
    Ev.exitSuccess ∈ fullMain optsBadZ true (some [['>', 'r']]) none := by decide

theorem configResult_eq_none (o : Options)
    (h : applyNumOpt 65 o.sArg ≤ 0 ∨ applyNumOpt 1 o.zArg ≤ 0 ∨
         applyNumOpt 11 o.mArg ≤ 0 ∨ applyNumOpt 0 o.eArg < 0 ∨
         applyNumOpt 7 o.lArg < 7 ∨ o.fmiFilename.length = 0 ∨
         o.inFilename.length = 0) :
    configResult o = none := by
  unfold configResult
  by_cases h1 : applyNumOpt 65 o.sArg ≤ 0
  · simp [h1]
  by_cases h2 : applyNumOpt 1 o.zArg ≤ 0
  · simp [h1, h2]
  by_cases h3 : applyNumOpt 11 o.mArg ≤ 0
  · simp [h1, h2, h3]
  by_cases h4 : applyNumOpt 0 o.eArg < 0
  · simp [h1, h2, h3, h4]
  by_cases h5 : applyNumOpt 7 o.lArg < 7
  · simp [h1, h2, h3, h4, h5]
  by_cases h6 : o.fmiFilename.length = 0
  · simp [h1, h2, h3, h4, h5, h6]
  by_cases h7 : o.inFilename.length = 0
  · simp [h1, h2, h3, h4, h5, h6, h7]
  rcases h with h | h | h | h | h | h | h
  exacts [absurd h h1, absurd h h2, absurd h h3, absurd h h4,
    absurd h h5, absurd h h6, absurd h h7]

/-- C3 (amended): for every invocation whose resolved numeric option
value — the value after a non-numeric or `int`-overflowing argument
falls back, with only a printed diagnostic, to the preceding default —
is outside its valid range (`-s`, `-z`, `-m` not positive, `-e`
negative, `-l` below 7), or whose mandatory `-f` or `-i` is missing, the
process aborts before the FM-index or any input stream is opened and
before the pipeline (queue, threads) is constructed.  A non-numeric
value by itself does not abort: it leaves the default in force. -/
theorem claim_C3_amended_thm (o : Options) (fmiOk : Bool)
    (in1 : Option (List (List Char))) (in2 : Option (Option (List (List Char))))
    (h : applyNumOpt 65 o.sArg ≤ 0 ∨ applyNumOpt 1 o.zArg ≤ 0 ∨
         applyNumOpt 11 o.mArg ≤ 0 ∨ applyNumOpt 0 o.eArg < 0 ∨
         applyNumOpt 7 o.lArg < 7 ∨ o.fmiFilename.length = 0 ∨
         o.inFilename.length = 0) :
    fullMain o fmiOk in1 in2 = [Ev.exitUsage] ∧
    Ev.openFmi ∉ fullMain o fmiOk in1 in2 ∧
    Ev.mkQueue ∉ fullMain o fmiOk in1 in2 ∧
    (∀ i, Ev.spawn i ∉ fullMain o fmiOk in1 in2) ∧
    Ev.openIn1 ∉ fullMain o fmiOk in1 in2 ∧
    Ev.openIn2 ∉ fullMain o fmiOk in1 in2 := by
  have hn := configResult_eq_none o h
  simp [fullMain, hn]

/-- Witness for the amended C3 at the out-of-range fragment length
`-m 0`. -/
theorem claim_C3_witness :
    fullMain optsBadM true none none = [Ev.exitUsage] ∧
    Ev.openFmi ∉ fullMain optsBadM true none none ∧
    Ev.mkQueue ∉ fullMain optsBadM true none none ∧
    (∀ i, Ev.spawn i ∉ fullMain optsBadM true none none) ∧
    Ev.openIn1 ∉ fullMain optsBadM true none none ∧
    Ev.openIn2 ∉ fullMain optsBadM true none none :=
  claim_C3_amended_thm optsBadM true none none (by decide)

theorem parseFastq_sequence2 :
    ∀ (ls : List (List Char)), ∀ r ∈ parseFastq ls, r.sequence2 = none
  | [] => by simp [parseFastq]
  | [h1] => by simp [parseFastq, ReadItem.mk2]
  | [h1, s] => by simp [parseFastq, ReadItem.mk2]
  | [h1, s, p] => by simp [parseFastq, ReadItem.mk2]
  | h1 :: s :: p :: q :: rest => by
    intro r hr
    rcases List.mem_cons.mp hr with rfl | hr2
    · rfl
    · exact parseFastq_sequence2 rest r hr2

theorem fastaGo_sequence2 (stream : List (List Char)) :
    ∀ (nm acc : List Char), ∀ r ∈ fastaGo nm acc stream, r.sequence2 = none := by
  induction stream with
  | nil =>
    intro nm acc r hr
    simp [fastaGo] at hr
    subst hr
    rfl
  | cons l rest ih =>
    intro nm acc r hr
    by_cases hl : startsWithGt l
    · simp only [fastaGo, hl, if_true] at hr
      rcases List.mem_cons.mp hr with rfl | hr2
      · rfl
      · exact ih (l.drop 1) [] r hr2
    · simp only [fastaGo, hl, Bool.false_eq_true, if_false] at hr
      exact ih nm (acc ++ l) r hr

theorem parseFasta_sequence2 (ls : List (List Char)) :
    ∀ r ∈ parseFasta ls, r.sequence2 = none := by
  cases ls with
  | nil => simp [parseFasta]
  | cons hd tl => exact fun r hr => fastaGo_sequence2 tl (hd.drop 1) [] r hr

theorem pairedLoop_sequence2 (fq : Bool) :
    ∀ (in2 : List (List Char)), ∀ r ∈ pairedLoop fq in2, r.sequence2 = none
  | [] => by simp [pairedLoop]
  | hd :: tl => by
    intro r hr
    have hsplit : pairedLoop fq (hd :: tl) =
        (if fq then ReadItem.mk2 (hd.drop 1) (strip (hd.drop 1))
         else ReadItem.mk2 (hd.drop 1) (strip [])) :: pairedLoop fq tl := by
      by_cases hq : fq <;> simp [pairedLoop, hq]
    rw [hsplit] at hr
    rcases List.mem_cons.mp hr with rfl | hr2
    · by_cases hq : fq <;> simp [hq, ReadItem.mk2]
    · exact pairedLoop_sequence2 fq tl r hr2

theorem producedItems_sequence2 (fq : Bool) (lines1 : List (List Char))
    (in2 : Option (Option (List (List Char)))) :
    ∀ r ∈ producedItems fq lines1 in2, r.sequence2 = none := by
  intro r hr
  unfold producedItems at hr
  rcases List.mem_append.mp hr with hA | hB
  · cases fq with
    | false =>
      simp only [Bool.false_eq_true, if_false] at hA
      exact parseFasta_sequence2 lines1 r hA
    | true =>
      simp only [if_true] at hA
      exact parseFastq_sequence2 lines1 r hA
  · rcases in2 with _ | (_ | l2) <;> simp at hB
    exact pairedLoop_sequence2 fq l2 r hB

/-- C9: every Work Item pushed to the queue during any run is constructed
with exactly one sequence (identifier plus primary sequence); the
optional second-sequence field is never populated, even in paired mode,
where the second file's records are pushed as separate, independent Work
Items rather than combined with their mates. -/
theorem claim_C9_thm (o : Options) (fmiOk : Bool) (in1 : Option (List (List Char)))
    (in2 : Option (Option (List (List Char)))) (r : ReadItem)
    (h : Ev.push r ∈ fullMain o fmiOk in1 in2) : r.sequence2 = none := by
  unfold fullMain at h
  cases hc : configResult o with
  | none => rw [hc] at h; simp at h
  | some p =>
    rw [hc] at h
    cases fmiOk with
    | false => simp at h
    | true =>
      cases in1 with
      | none => simp at h
      | some lines1 =>
        rcases in2 with _ | (_ | l2)
        · simp only [List.mem_cons, List.mem_append, List.mem_map] at h
          cases hd : detect1 (getlineM lines1).1 with
          | none => rw [hd] at h; simp at h
          | some fq =>
            rw [hd] at h
            simp at h
            exact producedItems_sequence2 fq lines1 none r h
        · simp at h
        · simp only [List.mem_cons, List.mem_append, List.mem_map] at h
          cases hd : detect1 (getlineM lines1).1 with
          | none => rw [hd] at h; simp at h
          | some fq =>
            rw [hd] at h
            simp at h
            exact producedItems_sequence2 fq lines1 (some (some l2)) r h

/-- Witness for C9 at the single-record FASTA run over `>r / AA`. -/
theorem claim_C9_witness : (ReadItem.mk2 ['r'] ['A', 'A']).sequence2 = none :=
  claim_C9_thm optsOk true (some [['>', 'r'], ['A', 'A']]) none
    (ReadItem.mk2 ['r'] ['A', 'A']) (by decide)

theorem preEvents_mem (n : Nat) (opt2 : List Ev) (items : List ReadItem)
    (hopt : opt2 = [] ∨ opt2 = [Ev.openIn2]) :
    Ev.pushedLast ∉ preEvents n opt2 items ∧
    (∀ i, Ev.join i ∉ preEvents n opt2 items) ∧
    Ev.destroyQueue ∉ preEvents n opt2 items ∧
    Ev.destroyConfig ∉ preEvents n opt2 items ∧
    (∀ i, Ev.spawn i ∈ preEvents n opt2 items ↔ i < n) := by
  rcases hopt with rfl | rfl <;>
    refine ⟨?_, ?_, ?_, ?_, ?_⟩ <;>
      simp [preEvents]

/-- C8: in every run that reaches normal completion, the completion
signal `pushedLast` is issued exactly once — it occurs at one position,
after every push of every configured input stream, and nowhere in the
prefix before it nor in the suffix after it — and every one of the `N`
spawned worker threads is joined, in spawn order (`join 0 .. join (N-1)`,
matching `spawn 0 .. spawn (N-1)`), before the queue and the run
configuration are destroyed. -/
theorem claim_C8_thm (o : Options) (p : RunParams) (lines1 : List (List Char))
    (in2 : Option (Option (List (List Char)))) (fq : Bool)
    (hc : configResult o = some p) (hin2 : in2 ≠ some none)
    (hd : detect1 (getlineM lines1).1 = some fq) :
    ∃ pre,
      fullMain o true (some lines1) in2 =
        pre ++ Ev.pushedLast ::
          ((List.range p.numThreads).map Ev.join ++
            [Ev.destroyQueue, Ev.destroyConfig, Ev.exitSuccess]) ∧
      Ev.pushedLast ∉ pre ∧
      Ev.pushedLast ∉ (List.range p.numThreads).map Ev.join ++
        [Ev.destroyQueue, Ev.destroyConfig, Ev.exitSuccess] ∧
      (∀ i, Ev.join i ∉ pre) ∧
      Ev.destroyQueue ∉ pre ∧
      Ev.destroyConfig ∉ pre ∧
      (∀ r, Ev.push r ∈ fullMain o true (some lines1) in2 → Ev.push r ∈ pre) ∧
      (∀ i, Ev.spawn i ∈ pre ↔ i < p.numThreads) := by
  rcases in2 with _ | (_ | l2)
  · have hm := preEvents_mem p.numThreads [] (producedItems fq lines1 none) (Or.inl rfl)
    have ha : fullMain o true (some lines1) none =
        preEvents p.numThreads [] (producedItems fq lines1 none) ++
          Ev.pushedLast :: ((List.range p.numThreads).map Ev.join ++
            [Ev.destroyQueue, Ev.destroyConfig, Ev.exitSuccess]) := by
      simp [fullMain, hc, hd, preEvents]
    refine ⟨_, ha, hm.1, by simp, hm.2.1, hm.2.2.1, hm.2.2.2.1, ?_, hm.2.2.2.2⟩
    intro r hr
    rw [ha] at hr
    rcases List.mem_append.mp hr with h1 | h2
    · exact h1
    · simp at h2
  · exact absurd rfl hin2
  · have hm := preEvents_mem p.numThreads [Ev.openIn2]
      (producedItems fq lines1 (some (some l2))) (Or.inr rfl)
    have ha : fullMain o true (some lines1) (some (some l2)) =
        preEvents p.numThreads [Ev.openIn2]
            (producedItems fq lines1 (some (some l2))) ++
          Ev.pushedLast :: ((List.range p.numThreads).map Ev.join ++
            [Ev.destroyQueue, Ev.destroyConfig, Ev.exitSuccess]) := by
      simp [fullMain, hc, hd, preEvents]
    refine ⟨_, ha, hm.1, by simp, hm.2.1, hm.2.2.1, hm.2.2.2.1, ?_, hm.2.2.2.2⟩
    intro r hr
    rw [ha] at hr
    rcases List.mem_append.mp hr with h1 | h2
    · exact h1
    · simp at h2

/-- Witness for C8 at the single-threaded FASTA run over `>r / A`. -/
theorem claim_C8_witness :
    ∃ pre,
      fullMain optsOk true (some [['>', 'r'], ['A']]) none =
        pre ++ Ev.pushedLast ::
          ((List.range paramsOk.numThreads).map Ev.join ++
            [Ev.destroyQueue, Ev.destroyConfig, Ev.exitSuccess]) ∧
      Ev.pushedLast ∉ pre ∧
      Ev.pushedLast ∉ (List.range paramsOk.numThreads).map Ev.join ++
        [Ev.destroyQueue, Ev.destroyConfig, Ev.exitSuccess] ∧
      (∀ i, Ev.join i ∉ pre) ∧
      Ev.destroyQueue ∉ pre ∧
      Ev.destroyConfig ∉ pre ∧
      (∀ r, Ev.push r ∈ fullMain optsOk true (some [['>', 'r'], ['A']]) none →
        Ev.push r ∈ pre) ∧
      (∀ i, Ev.spawn i ∈ pre ↔ i < paramsOk.numThreads) :=
  claim_C8_thm optsOk paramsOk [['>', 'r'], ['A']] none false (by decide)
    (by decide) (by decide)

end Kaijup
